import Mathlib

/-!
The Otonomos hybrid consensus router (consensus/otonomos/otonomos.go)

A shallow embedding of the router that sends every consensus call either to the
proof-of-work engine (ethash) or to the proof-of-authority engine (clique),
depending on the block number of the header at hand.

* The two engines are external collaborators; they are arbitrary state
  transformers over a world type `W` (everything an engine may read or change).
* `header.Number` is a Go `*big.Int`, embedded as `Int`; `Number.Int64()` is the
  conversion of Go's `math/big`, which keeps the low 64 bits. Block numbers are
  unsigned: a header read from the wire carries a natural number.
* `powStartBlock` is a Go `int64`, embedded as an integer with its range.
* Pointers are taken to be non-nil; a header argument stands for the content of
  the pointed-to header at the time of the call.
* `VerifyHeaders` starts a goroutine; it is embedded as a step function over
  the state of the worker, the buffered results channel and the abort signal,
  driven by a schedule of events.
-/

namespace Otonomos

/-! ## Go integers -/

/-- A Go `int64`: an integer in the range `[-2^63, 2^63)`. -/
abbrev GoInt64 : Type := { x : Int // -2 ^ 63 ≤ x ∧ x < 2 ^ 63 }

/-- Two's complement wrap-around of an integer into the `int64` range. -/
def wrap64 (z : Int) : GoInt64 :=
  ⟨(z + 2 ^ 63) % 2 ^ 64 - 2 ^ 63, by
    have h1 : 0 ≤ (z + 2 ^ 63) % 2 ^ 64 := Int.emod_nonneg _ (by norm_num)
    have h2 : (z + 2 ^ 63) % 2 ^ 64 < 2 ^ 64 := Int.emod_lt_of_pos _ (by norm_num)
    constructor <;> omega⟩

/-- The helper `low64` of `math/big`: the least significant 64 bits of a magnitude. -/
def low64 (abs : Nat) : Nat := abs % 2 ^ 64

/-- The method `(*big.Int).Int64` of Go's `math/big`:
`v := int64(low64(x.abs)); if x.neg { v = -v }; return v`, where the conversion
`int64(uint64)` and the negation wrap around in two's complement. -/
def BigInt.Int64 (x : Int) : GoInt64 :=
  let v := wrap64 (low64 x.natAbs)
  if x < 0 then wrap64 (-v.val) else v

/-! ## External types -/

/-- The types of go-ethereum that the router only passes along. -/
structure Types where
  ChainReader : Type
  Address : Type
  HeaderFields : Type
  Transaction : Type
  Receipt : Type
  StateDB : Type
  Database : Type
  Error : Type
  API : Type
  StopChan : Type
  OtonomosConfig : Type

/-- A `types.Header`: the router reads `Number` and `Coinbase`; the remaining
fields are carried in `fields`. -/
structure Header (S : Types) where
  Number : Int
  Coinbase : S.Address
  fields : S.HeaderFields

/-- A `types.Block`: a header, the uncle headers and the transactions. -/
structure Block (S : Types) where
  header : Header S
  uncles : List (Header S)
  transactions : List S.Transaction

/-- The accessor `(*types.Block).Header`, which hands out a copy of the block's header. -/
def Block.Header {S : Types} (b : Block S) : Header S := b.header

/-- A Go `error` value; `none` is `nil`. -/
abbrev GoError (S : Types) : Type := Option S.Error

/-- The result pair `(*types.Block, error)` of `Finalize` and `Seal`. -/
abbrev BlockResult (S : Types) : Type := Option (Block S) × GoError S

/-- The configuration `params.CliqueConfig` handed to `clique.New`
(signer period and epoch length). -/
structure CliqueConfig where
  Period : Nat
  Epoch : Nat
deriving DecidableEq, Repr

/-- The interface `consensus.Engine`, as implemented by `ethash.Ethash` and
`clique.Clique`: every method may read and change the world `W`. -/
structure Engine (S : Types) (W : Type) where
  Author : Header S → W → (S.Address × GoError S) × W
  VerifyHeader : S.ChainReader → Header S → Bool → W → GoError S × W
  VerifyUncles : S.ChainReader → Block S → W → GoError S × W
  VerifySeal : S.ChainReader → Header S → W → GoError S × W
  Prepare : S.ChainReader → Header S → W → GoError S × W
  Finalize : S.ChainReader → Header S → S.StateDB → List S.Transaction →
    List (Header S) → List S.Receipt → W → BlockResult S × W
  Seal : S.ChainReader → Block S → S.StopChan → W → BlockResult S × W
  APIs : S.ChainReader → W → List S.API × W

end Otonomos

/-- The struct `Otonomos`: the switch height and the two engines. -/
structure Otonomos (S : Otonomos.Types) (W : Type) where
  powStartBlock : Otonomos.GoInt64
  db : S.Database
  pow : Otonomos.Engine S W
  clique : Otonomos.Engine S W

namespace Otonomos

variable {S : Types} {W : Type}

/-- The constructor `New`. The constructors `ethash.New` and `clique.New` of the
two engines are external and are taken as parameters. -/
def New (ethashNew : String → Int → Int → String → Int → Int → Engine S W)
    (cliqueNew : CliqueConfig → S.Database → Engine S W)
    (cachedir : String) (cachesinmem cachesondisk : Int) (dagdir : String)
    (dagsinmem dagsondisk : Int) (_config : S.OtonomosConfig) (db : S.Database) :
    Otonomos S W :=
  let cliqueConf : CliqueConfig := { Period := 15, Epoch := 30000 }
  { powStartBlock := ⟨360374, by norm_num⟩
    db := db
    pow := ethashNew cachedir cachesinmem cachesondisk dagdir dagsinmem dagsondisk
    clique := cliqueNew cliqueConf db }

/-- The method `Author`: returns the header's coinbase and a nil error. -/
def Author (_otonomos : Otonomos S W) (header : Header S) (w : W) :
    (S.Address × GoError S) × W :=
  ((header.Coinbase, none), w)

/-- The private method `verifyHeader`: routes on the number of the header. The
parameter `seal` of the source is written `sealFlag`, `seal` being a reserved word. -/
def verifyHeader (otonomos : Otonomos S W) (chain : S.ChainReader) (header : Header S)
    (sealFlag : Bool) : W → GoError S × W :=
  if (BigInt.Int64 header.Number).val < otonomos.powStartBlock.val then
    otonomos.pow.VerifyHeader chain header sealFlag
  else
    otonomos.clique.VerifyHeader chain header sealFlag

/-- The method `VerifyHeader`: calls `verifyHeader`. -/
def VerifyHeader (otonomos : Otonomos S W) (chain : S.ChainReader) (header : Header S)
    (sealFlag : Bool) : W → GoError S × W :=
  otonomos.verifyHeader chain header sealFlag

/-- The method `VerifyUncles`: routes on the number of the block's own header. -/
def VerifyUncles (otonomos : Otonomos S W) (chain : S.ChainReader) (block : Block S) :
    W → GoError S × W :=
  let header := block.Header
  if (BigInt.Int64 header.Number).val < otonomos.powStartBlock.val then
    otonomos.pow.VerifyUncles chain block
  else
    otonomos.clique.VerifyUncles chain block

/-- The method `VerifySeal`: routes on the number of the header. -/
def VerifySeal (otonomos : Otonomos S W) (chain : S.ChainReader) (header : Header S) :
    W → GoError S × W :=
  if (BigInt.Int64 header.Number).val < otonomos.powStartBlock.val then
    otonomos.pow.VerifySeal chain header
  else
    otonomos.clique.VerifySeal chain header

/-- The method `Prepare`: routes on the number of the header. -/
def Prepare (otonomos : Otonomos S W) (chain : S.ChainReader) (header : Header S) :
    W → GoError S × W :=
  if (BigInt.Int64 header.Number).val < otonomos.powStartBlock.val then
    otonomos.pow.Prepare chain header
  else
    otonomos.clique.Prepare chain header

/-- The method `Finalize`: routes on the number of the header. -/
def Finalize (otonomos : Otonomos S W) (chain : S.ChainReader) (header : Header S)
    (state : S.StateDB) (txs : List S.Transaction) (uncles : List (Header S))
    (receipts : List S.Receipt) : W → BlockResult S × W :=
  if (BigInt.Int64 header.Number).val < otonomos.powStartBlock.val then
    otonomos.pow.Finalize chain header state txs uncles receipts
  else
    otonomos.clique.Finalize chain header state txs uncles receipts

/-- The method `Seal`: routes on the number of the block's header. -/
def Seal (otonomos : Otonomos S W) (chain : S.ChainReader) (block : Block S)
    (stop : S.StopChan) : W → BlockResult S × W :=
  let header := block.Header
  if (BigInt.Int64 header.Number).val < otonomos.powStartBlock.val then
    otonomos.pow.Seal chain block stop
  else
    otonomos.clique.Seal chain block stop

/-- The method `APIs`: asks the clique engine. -/
def APIs (otonomos : Otonomos S W) (chain : S.ChainReader) : W → List S.API × W :=
  otonomos.clique.APIs chain

/-! ## Calls of the interface and the ghost trace of engine calls -/

/-- The two engines held by the router. -/
inductive EngineKind
  | PoW
  | PoA
deriving DecidableEq, Repr

/-- A call of a method of `consensus.Engine` with the arguments it is given. -/
inductive Call (S : Types)
  | Author (header : Header S)
  | VerifyHeader (chain : S.ChainReader) (header : Header S) (sealFlag : Bool)
  | VerifyUncles (chain : S.ChainReader) (block : Block S)
  | VerifySeal (chain : S.ChainReader) (header : Header S)
  | Prepare (chain : S.ChainReader) (header : Header S)
  | Finalize (chain : S.ChainReader) (header : Header S) (state : S.StateDB)
      (txs : List S.Transaction) (uncles : List (Header S)) (receipts : List S.Receipt)
  | Seal (chain : S.ChainReader) (block : Block S) (stop : S.StopChan)
  | APIs (chain : S.ChainReader)

/-- What a call of a method of `consensus.Engine` returns. -/
inductive Ret (S : Types)
  | author (address : S.Address) (err : GoError S)
  | error (err : GoError S)
  | block (result : BlockResult S)
  | apis (list : List S.API)

/-- The block number a routed method looks at: the number of the header it is
given, or of the header of the block it is given. `Author` and `APIs` are not
routed. -/
def Call.routedNumber : Call S → Option Int
  | .Author _ => none
  | .VerifyHeader _ header _ => some header.Number
  | .VerifyUncles _ block => some block.Header.Number
  | .VerifySeal _ header => some header.Number
  | .Prepare _ header => some header.Number
  | .Finalize _ header _ _ _ _ => some header.Number
  | .Seal _ block _ => some block.Header.Number
  | .APIs _ => none

/-- Performing a call on an engine: the method of that name, with those arguments. -/
def Engine.invoke (e : Engine S W) : Call S → W → Ret S × W
  | .Author header, w => let r := e.Author header w; (.author r.1.1 r.1.2, r.2)
  | .VerifyHeader chain header sealFlag, w =>
      let r := e.VerifyHeader chain header sealFlag w; (.error r.1, r.2)
  | .VerifyUncles chain block, w => let r := e.VerifyUncles chain block w; (.error r.1, r.2)
  | .VerifySeal chain header, w => let r := e.VerifySeal chain header w; (.error r.1, r.2)
  | .Prepare chain header, w => let r := e.Prepare chain header w; (.error r.1, r.2)
  | .Finalize chain header state txs uncles receipts, w =>
      let r := e.Finalize chain header state txs uncles receipts w; (.block r.1, r.2)
  | .Seal chain block stop, w => let r := e.Seal chain block stop w; (.block r.1, r.2)
  | .APIs chain, w => let r := e.APIs chain w; (.apis r.1, r.2)

/-- Performing a call on the router: the router's method of that name, with those
arguments. -/
def invoke (otonomos : Otonomos S W) : Call S → W → Ret S × W
  | .Author header, w => let r := otonomos.Author header w; (.author r.1.1 r.1.2, r.2)
  | .VerifyHeader chain header sealFlag, w =>
      let r := otonomos.VerifyHeader chain header sealFlag w; (.error r.1, r.2)
  | .VerifyUncles chain block, w =>
      let r := otonomos.VerifyUncles chain block w; (.error r.1, r.2)
  | .VerifySeal chain header, w => let r := otonomos.VerifySeal chain header w; (.error r.1, r.2)
  | .Prepare chain header, w => let r := otonomos.Prepare chain header w; (.error r.1, r.2)
  | .Finalize chain header state txs uncles receipts, w =>
      let r := otonomos.Finalize chain header state txs uncles receipts w; (.block r.1, r.2)
  | .Seal chain block stop, w => let r := otonomos.Seal chain block stop w; (.block r.1, r.2)
  | .APIs chain, w => let r := otonomos.APIs chain w; (.apis r.1, r.2)

/-- The world together with a ghost trace: the engine calls made so far, oldest
first, each with the engine it went to. -/
structure Exec (S : Types) (W : Type) where
  world : W
  trace : List (EngineKind × Call S)

/-- Runs an engine method on the world and appends the call to the trace. -/
def logged {R : Type} (k : EngineKind) (c : Call S) (f : W → R × W) (x : Exec S W) :
    R × Exec S W :=
  ((f x.world).1, { world := (f x.world).2, trace := x.trace ++ [(k, c)] })

/-- The engine `e`, with every call of one of its methods recorded in the trace. -/
def Engine.observe (k : EngineKind) (e : Engine S W) : Engine S (Exec S W) where
  Author header := logged k (.Author header) (e.Author header)
  VerifyHeader chain header sealFlag :=
    logged k (.VerifyHeader chain header sealFlag) (e.VerifyHeader chain header sealFlag)
  VerifyUncles chain block := logged k (.VerifyUncles chain block) (e.VerifyUncles chain block)
  VerifySeal chain header := logged k (.VerifySeal chain header) (e.VerifySeal chain header)
  Prepare chain header := logged k (.Prepare chain header) (e.Prepare chain header)
  Finalize chain header state txs uncles receipts :=
    logged k (.Finalize chain header state txs uncles receipts)
      (e.Finalize chain header state txs uncles receipts)
  Seal chain block stop := logged k (.Seal chain block stop) (e.Seal chain block stop)
  APIs chain := logged k (.APIs chain) (e.APIs chain)

/-- The router with both of its engines observed. -/
def observe (otonomos : Otonomos S W) : Otonomos S (Exec S W) where
  powStartBlock := otonomos.powStartBlock
  db := otonomos.db
  pow := otonomos.pow.observe .PoW
  clique := otonomos.clique.observe .PoA

/-- The routing predicate in the words of the specification:
PoW if `blockNumber < SwitchHeight`, else PoA. -/
def route (SwitchHeight blockNumber : Int) : EngineKind :=
  if blockNumber < SwitchHeight then .PoW else .PoA

/-- The engine of the router that goes by a given kind. -/
def engine (otonomos : Otonomos S W) : EngineKind → Engine S W
  | .PoW => otonomos.pow
  | .PoA => otonomos.clique

/-! ## VerifyHeaders: the worker goroutine and its two channels -/

namespace VerifyHeaders

/-- Where the worker goroutine stands. -/
inductive Worker (S : Types)
  /-- At the head of `for i, header := range headers`, about to take index `i`. -/
  | loop (i : Nat)
  /-- At the `select`, holding the `err` computed for index `i`. -/
  | select (i : Nat) (err : GoError S)
  /-- The goroutine has ended: the range was exhausted, or the abort case ran `return`. -/
  | returned
  /-- The index expression `seals[i]` was out of range. -/
  | panicked

/-- The state shared by the worker and the caller of `VerifyHeaders`. -/
structure State (S : Types) (W : Type) where
  /-- The position of the worker goroutine. -/
  worker : Worker S
  /-- The world the engines act on. -/
  world : W
  /-- The content of the buffered channel `results`, oldest first. -/
  results : List (GoError S)
  /-- The values the caller has received from `results`, oldest first. -/
  received : List (GoError S)
  /-- Whether the caller has signalled on `abort` (closed it, or is sending on it). -/
  abort : Bool

/-- All the values ever sent on `results`, in the order they were sent. -/
def State.published {S : Types} {W : Type} (s : State S W) : List (GoError S) :=
  s.received ++ s.results

/-- The moves of the two parties. -/
inductive Event
  /-- The worker runs up to its next communication: at the loop head it calls
  `verifyHeader` (or ends, when the range is exhausted); at the `select` it takes
  the case `results <- err`. -/
  | worker
  /-- The worker, at the `select`, takes the case `<-abort`. -/
  | workerAbort
  /-- The caller receives one value from `results`. -/
  | recv
  /-- The caller signals on `abort`. -/
  | abort
deriving DecidableEq, Repr

/-- One move. `none` when the move cannot be made in the state: a send on a full
buffer, a receive from an empty buffer or from an unsignalled `abort`, and any
move of a worker that has ended. Go's `select` may take any case that can
proceed, so at the `select` both `worker` and `workerAbort` can be possible. -/
def step (otonomos : Otonomos S W) (chain : S.ChainReader) (headers : List (Header S))
    (seals : List Bool) : Event → State S W → Option (State S W)
  | .worker, s =>
    match s.worker with
    | .loop i =>
      match headers[i]? with
      | none => some { s with worker := .returned }
      | some header =>
        match seals[i]? with
        | none => some { s with worker := .panicked }
        | some sealFlag =>
          let r := otonomos.verifyHeader chain header sealFlag s.world
          some { s with worker := .select i r.1, world := r.2 }
    | .select i err =>
      if s.results.length < headers.length then
        some { s with worker := .loop (i + 1), results := s.results ++ [err] }
      else none
    | .returned => none
    | .panicked => none
  | .workerAbort, s =>
    match s.worker with
    | .select _ _ => if s.abort then some { s with worker := .returned } else none
    | _ => none
  | .recv, s =>
    match s.results with
    | [] => none
    | r :: rest => some { s with results := rest, received := s.received ++ [r] }
  | .abort, s => some { s with abort := true }

/-- A schedule of moves, made one after the other. -/
def run (otonomos : Otonomos S W) (chain : S.ChainReader) (headers : List (Header S))
    (seals : List Bool) : List Event → State S W → Option (State S W)
  | [], s => some s
  | e :: es, s => (step otonomos chain headers seals e s).bind (run otonomos chain headers seals es)

end VerifyHeaders

/-- The method `VerifyHeaders`: makes the two channels, starts the worker and returns at once:
the state it leaves behind has the worker at index 0, an empty `results` buffer
(of capacity `len(headers)`) and an unsignalled `abort`. -/
def VerifyHeaders (_otonomos : Otonomos S W) (_chain : S.ChainReader)
    (_headers : List (Header S)) (_seals : List Bool) (w : W) : VerifyHeaders.State S W :=
  { worker := .loop 0, world := w, results := [], received := [], abort := false }

/-- The reference for `VerifyHeaders`: `VerifyHeader` called on each header with
its seal flag, in input order, every call acting on the world its predecessor left. -/
def verifyEach (otonomos : Otonomos S W) (chain : S.ChainReader) :
    List (Header S) → List Bool → W → List (GoError S)
  | header :: headers, sealFlag :: seals, w =>
    (otonomos.VerifyHeader chain header sealFlag w).1 ::
      verifyEach otonomos chain headers seals (otonomos.VerifyHeader chain header sealFlag w).2
  | _, _, _ => []

/-- The world that the first calls of `verifyEach` leave behind: the world after
`VerifyHeader` has been called on every listed header with its seal flag. -/
def worldAfter (otonomos : Otonomos S W) (chain : S.ChainReader) :
    List (Header S) → List Bool → W → W
  | header :: headers, sealFlag :: seals, w =>
    worldAfter otonomos chain headers seals (otonomos.VerifyHeader chain header sealFlag w).2
  | _, _, w => w

namespace VerifyHeaders

/-- The invariant of the states that `VerifyHeaders` can reach from the world `w0`:
the values sent so far are the first results of `verifyEach`, the worker's index
counts them, and what remains of `verifyEach` is what the worker still holds or
has still to compute from the current world. -/
def Inv (otonomos : Otonomos S W) (chain : S.ChainReader) (headers : List (Header S))
    (seals : List Bool) (w0 : W) (s : State S W) : Prop :=
  ∃ rest : List (GoError S),
    verifyEach otonomos chain headers seals w0 = s.published ++ rest ∧
    match s.worker with
    | .loop i =>
      i = s.published.length ∧
        rest = verifyEach otonomos chain (headers.drop i) (seals.drop i) s.world
    | .select i err =>
      i = s.published.length ∧ i < headers.length ∧
        rest = err :: verifyEach otonomos chain (headers.drop (i + 1)) (seals.drop (i + 1)) s.world
    | .returned => s.abort = false → rest = []
    | .panicked => False

/-- A bound on the number of moves the worker has left. -/
def fuel (headers : List (Header S)) (s : State S W) : Nat :=
  match s.worker with
  | .loop i => 2 * (headers.length - i) + 1
  | .select i _ => 2 * (headers.length - i)
  | .returned => 0
  | .panicked => 0

/-- Whether a move is the worker's `select` taking the case `results <- err`. -/
def takesSend : Event → Worker S → Bool
  | .worker, .select _ _ => true
  | _, _ => false

/-- Whether, along a schedule from a state, the abort wins every `select`: the
worker's `select` never takes the send. -/
def neverSends (otonomos : Otonomos S W) (chain : S.ChainReader) (headers : List (Header S))
    (seals : List Bool) : List Event → State S W → Bool
  | [], _ => true
  | e :: es, s =>
    !(takesSend e s.worker) &&
      match step otonomos chain headers seals e s with
      | none => true
      | some s' => neverSends otonomos chain headers seals es s'

/-- The abort property in the words of the specification: whenever the abort is
signalled at a moment at which the caller has consumed `K < N` results, exactly
`K` values are ever sent on the results channel. -/
def AbortLeavesExactlyConsumed (otonomos : Otonomos S W) (chain : S.ChainReader)
    (headers : List (Header S)) (seals : List Bool) (w : W) : Prop :=
  ∀ (K : Nat) (before after : List Event) (s1 s2 : State S W),
    K < headers.length →
    run otonomos chain headers seals before (VerifyHeaders otonomos chain headers seals w) =
      some s1 →
    s1.abort = false →
    s1.received.length = K →
    run otonomos chain headers seals (Event.abort :: after) s1 = some s2 →
    s2.published.length = K

end VerifyHeaders

/-! ## A small concrete instance, for evaluating the definitions -/

/-- Concrete carrier types: natural numbers for addresses, errors and APIs. -/
@[reducible]
def sampleTypes : Types where
  ChainReader := Unit
  Address := Nat
  HeaderFields := Unit
  Transaction := Nat
  Receipt := Nat
  StateDB := Unit
  Database := Unit
  Error := Nat
  API := Nat
  StopChan := Unit
  OtonomosConfig := Unit

/-- A toy engine over a counter: every call adds one to the world and answers
with the engine's `tag`. -/
def sampleEngine (tag : Nat) : Engine sampleTypes Nat where
  Author header w := ((header.Coinbase, some tag), w + 1)
  VerifyHeader _ header _ w := (some (tag + header.Number.natAbs), w + 1)
  VerifyUncles _ _ w := (some tag, w + 1)
  VerifySeal _ _ w := (some tag, w + 1)
  Prepare _ _ w := (some tag, w + 1)
  Finalize _ _ _ _ _ _ w := ((none, some tag), w + 1)
  Seal _ block _ w := ((some block, some tag), w + 1)
  APIs _ w := ([tag], w + 1)

/-- The router built by `New` over two toy engines: tag 100 for ethash, 200 for clique. -/
def sampleRouter : Otonomos sampleTypes Nat :=
  New (fun _ _ _ _ _ _ => sampleEngine 100) (fun _ _ => sampleEngine 200) "" 0 0 "" 0 0 () ()

/-- A header with the given number. -/
def sampleHeader (n : Int) : Header sampleTypes :=
  { Number := n, Coinbase := 7, fields := () }

/-- A block with the given number and uncles of the given numbers. -/
def sampleBlock (n : Int) (uncles : List Int) : Block sampleTypes :=
  { header := sampleHeader n, uncles := uncles.map sampleHeader, transactions := [] }

end Otonomos

namespace Otonomos

variable {S : Types} {W : Type}

/-! ## The conversion to `int64` -/

/-- The conversion `Int64` is the wrap-around of the number into the `int64` range. -/
theorem BigInt.Int64_val (x : Int) :
    (BigInt.Int64 x).val = (x + 2 ^ 63) % 2 ^ 64 - 2 ^ 63 := by
  unfold BigInt.Int64 wrap64 low64
  by_cases hx : x < 0
  · simp only [hx, if_true]
    push_cast
    rw [abs_of_neg hx]
    omega
  · simp only [hx, if_false]
    push_cast
    rw [abs_of_nonneg (not_lt.mp hx)]
    omega

/-- On numbers that fit, the conversion `Int64` is exact. -/
theorem BigInt.Int64_of_fits (x : Int) (hlo : -2 ^ 63 ≤ x) (hhi : x < 2 ^ 63) :
    (BigInt.Int64 x).val = x := by
  rw [BigInt.Int64_val]
  omega

/-! ## Routing of the single calls -/

/-- Every routed method of the observed router makes exactly one engine call:
the same call, on the PoW engine when the converted number is below
`powStartBlock` and on the PoA engine otherwise. -/
theorem invoke_observe_routed (o : Otonomos S W) (c : Call S) (n : Int)
    (hc : c.routedNumber = some n) (x : Exec S W) :
    o.observe.invoke c x =
      (((o.engine (route o.powStartBlock.val (BigInt.Int64 n).val)).invoke c x.world).1,
        { world := ((o.engine (route o.powStartBlock.val (BigInt.Int64 n).val)).invoke c x.world).2
          trace := x.trace ++ [(route o.powStartBlock.val (BigInt.Int64 n).val, c)] }) := by
  by_cases h : (BigInt.Int64 n).val < o.powStartBlock.val <;>
    cases c <;> simp only [Call.routedNumber, Option.some.injEq, reduceCtorEq] at hc <;>
    subst hc <;>
    simp [invoke, VerifyHeader, verifyHeader, VerifyUncles, VerifySeal, Prepare, Finalize, Seal,
      observe, Engine.observe, logged, engine, Engine.invoke, route, h]

/-- Without the trace: a routed method of the router is the same state
transformer as the method of the engine it selects. -/
theorem invoke_routed (o : Otonomos S W) (c : Call S) (n : Int)
    (hc : c.routedNumber = some n) :
    o.invoke c = (o.engine (route o.powStartBlock.val (BigInt.Int64 n).val)).invoke c := by
  funext w
  by_cases h : (BigInt.Int64 n).val < o.powStartBlock.val <;>
    cases c <;> simp only [Call.routedNumber, Option.some.injEq, reduceCtorEq] at hc <;>
    subst hc <;>
    simp [invoke, VerifyHeader, verifyHeader, VerifyUncles, VerifySeal, Prepare, Finalize, Seal,
      engine, Engine.invoke, route, h]

/-- C1: block numbers are unsigned, so `n` ranges over the natural numbers. For
every routed call (VerifyHeader, VerifyUncles, VerifySeal, Prepare, Finalize,
Seal) on a header or block whose number `n` satisfies `n < SwitchHeight`, the
router makes exactly one engine call, the PoW engine's method of the same name
with the same arguments, and returns its result and its effect on the world
unchanged; the PoA engine is not called. -/
theorem routed_below_switch_calls_pow (o : Otonomos S W) (c : Call S) (n : Nat)
    (hc : c.routedNumber = some (n : Int)) (hlt : (n : Int) < o.powStartBlock.val)
    (x : Exec S W) :
    o.observe.invoke c x =
        ((o.pow.invoke c x.world).1,
          { world := (o.pow.invoke c x.world).2, trace := x.trace ++ [(EngineKind.PoW, c)] })
      ∧ o.invoke c = o.pow.invoke c := by
  have hs := o.powStartBlock.property
  have hfit : (BigInt.Int64 (n : Int)).val = (n : Int) :=
    BigInt.Int64_of_fits n (by omega) (by omega)
  have hr : route o.powStartBlock.val (BigInt.Int64 (n : Int)).val = EngineKind.PoW := by
    simp [route, hfit, hlt]
  refine ⟨?_, ?_⟩
  · rw [invoke_observe_routed o c n hc x, hr]; rfl
  · rw [invoke_routed o c n hc, hr]; rfl

/-- Witness of C1: `VerifyHeader` on header number 360373, the last number below
the switch height of the router of `New`. -/
theorem routed_below_switch_calls_pow_witness :
    (Call.VerifyHeader () (sampleHeader 360373) true : Call sampleTypes).routedNumber =
        some ((360373 : Nat) : Int)
      ∧ ((360373 : Nat) : Int) < sampleRouter.powStartBlock.val
      ∧ sampleRouter.observe.invoke (.VerifyHeader () (sampleHeader 360373) true) ⟨0, []⟩ =
          ((sampleRouter.pow.invoke (.VerifyHeader () (sampleHeader 360373) true) 0).1,
            { world := (sampleRouter.pow.invoke (.VerifyHeader () (sampleHeader 360373) true) 0).2
              trace := [] ++ [(EngineKind.PoW, .VerifyHeader () (sampleHeader 360373) true)] })
      ∧ sampleRouter.invoke (.VerifyHeader () (sampleHeader 360373) true) =
          sampleRouter.pow.invoke (.VerifyHeader () (sampleHeader 360373) true) :=
  ⟨rfl, by decide,
    (routed_below_switch_calls_pow sampleRouter (.VerifyHeader () (sampleHeader 360373) true)
      360373 rfl (by decide) ⟨0, []⟩).1,
    (routed_below_switch_calls_pow sampleRouter (.VerifyHeader () (sampleHeader 360373) true)
      360373 rfl (by decide) ⟨0, []⟩).2⟩

/-- C2 (amended): for every routed call (VerifyHeader, VerifyUncles, VerifySeal,
Prepare, Finalize, Seal) on a header or block whose number `n` satisfies
`SwitchHeight ≤ n < 2^63`, the case `n = SwitchHeight` included, the router makes
exactly one engine call, the PoA engine's method of the same name with the same
arguments, and returns its result and its effect on the world unchanged; the PoW
engine is not called. -/
theorem routed_from_switch_calls_poa (o : Otonomos S W) (c : Call S) (n : Int)
    (hc : c.routedNumber = some n) (hge : o.powStartBlock.val ≤ n) (hhi : n < 2 ^ 63)
    (x : Exec S W) :
    o.observe.invoke c x =
        ((o.clique.invoke c x.world).1,
          { world := (o.clique.invoke c x.world).2, trace := x.trace ++ [(EngineKind.PoA, c)] })
      ∧ o.invoke c = o.clique.invoke c := by
  have hs := o.powStartBlock.property
  have hfit : (BigInt.Int64 n).val = n := BigInt.Int64_of_fits n (by omega) hhi
  have hr : route o.powStartBlock.val (BigInt.Int64 n).val = EngineKind.PoA := by
    simp [route, hfit, not_lt.mpr hge]
  refine ⟨?_, ?_⟩
  · rw [invoke_observe_routed o c n hc x, hr]; rfl
  · rw [invoke_routed o c n hc, hr]; rfl

/-- Witness of C2 (amended): `Seal` on a block exactly at the switch height 360374. -/
theorem routed_from_switch_calls_poa_witness :
    (Call.Seal () (sampleBlock 360374 []) () : Call sampleTypes).routedNumber = some 360374
      ∧ sampleRouter.powStartBlock.val ≤ (360374 : Int) ∧ (360374 : Int) < 2 ^ 63
      ∧ sampleRouter.observe.invoke (.Seal () (sampleBlock 360374 []) ()) ⟨0, []⟩ =
          ((sampleRouter.clique.invoke (.Seal () (sampleBlock 360374 []) ()) 0).1,
            { world := (sampleRouter.clique.invoke (.Seal () (sampleBlock 360374 []) ()) 0).2
              trace := [] ++ [(EngineKind.PoA, .Seal () (sampleBlock 360374 []) ())] }) :=
  ⟨rfl, by decide, by norm_num,
    (routed_from_switch_calls_poa sampleRouter (.Seal () (sampleBlock 360374 []) ()) 360374 rfl
      (by decide) (by norm_num) ⟨0, []⟩).1⟩

/-- Counterexample to C2 as stated: the header number `2^63` is above the switch
height 360374, yet its `int64` conversion is `-2^63`, and `VerifySeal` calls the
PoW engine (and only it). -/
theorem routed_from_switch_counterexample :
    sampleRouter.powStartBlock.val ≤ (9223372036854775808 : Int)
      ∧ (Call.VerifySeal () (sampleHeader 9223372036854775808) :
          Call sampleTypes).routedNumber = some 9223372036854775808
      ∧ (BigInt.Int64 9223372036854775808).val = -9223372036854775808
      ∧ (sampleRouter.observe.invoke
          (.VerifySeal () (sampleHeader 9223372036854775808)) ⟨0, []⟩).2.trace.map
            Prod.fst = [EngineKind.PoW]
      ∧ sampleRouter.invoke (.VerifySeal () (sampleHeader 9223372036854775808)) 0 =
          sampleRouter.pow.invoke (.VerifySeal () (sampleHeader 9223372036854775808)) 0 := by
  refine ⟨by decide, rfl, by decide, by decide, rfl⟩

/-- C5: the engine that `VerifyUncles` calls is a function of the number of the
including block's own header alone: for every number there is one engine that
receives the call for every block with that header number, whatever its uncles;
and a block at the switch height that has an uncle numbered one below it is
verified by the PoA engine, which is the only engine called. -/
theorem verifyUncles_routed_by_block_number (o : Otonomos S W) (chain : S.ChainReader) :
    (∀ n : Int, ∃ k : EngineKind, ∀ block : Block S, block.Header.Number = n →
      ∀ x : Exec S W,
        o.observe.VerifyUncles chain block x =
          (((o.engine k).VerifyUncles chain block x.world).1,
            { world := ((o.engine k).VerifyUncles chain block x.world).2
              trace := x.trace ++ [(k, Call.VerifyUncles chain block)] }))
      ∧ (∀ block : Block S, block.Header.Number = o.powStartBlock.val →
        ∀ uncle ∈ block.uncles, uncle.Number = o.powStartBlock.val - 1 →
        ∀ x : Exec S W,
          o.observe.VerifyUncles chain block x =
            ((o.clique.VerifyUncles chain block x.world).1,
              { world := (o.clique.VerifyUncles chain block x.world).2
                trace := x.trace ++ [(EngineKind.PoA, Call.VerifyUncles chain block)] })) := by
  constructor
  · intro n
    refine ⟨route o.powStartBlock.val (BigInt.Int64 n).val, ?_⟩
    intro block hb x
    subst hb
    by_cases h : (BigInt.Int64 block.Header.Number).val < o.powStartBlock.val <;>
      simp [VerifyUncles, observe, Engine.observe, logged, engine, route, h]
  · intro block hb _ _ _ x
    have hs := o.powStartBlock.property
    have hfit : (BigInt.Int64 block.Header.Number).val = o.powStartBlock.val := by
      rw [hb]; exact BigInt.Int64_of_fits _ hs.1 hs.2
    simp [VerifyUncles, observe, Engine.observe, logged, hfit]

/-- Witness of C5: a block at height 360374 with an uncle at height 360373. -/
theorem verifyUncles_routed_by_block_number_witness :
    (sampleBlock 360374 [360373]).Header.Number = sampleRouter.powStartBlock.val
      ∧ sampleHeader 360373 ∈ (sampleBlock 360374 [360373]).uncles
      ∧ (sampleHeader 360373).Number = sampleRouter.powStartBlock.val - 1
      ∧ sampleRouter.observe.VerifyUncles () (sampleBlock 360374 [360373]) ⟨0, []⟩ =
          ((sampleRouter.clique.VerifyUncles () (sampleBlock 360374 [360373]) 0).1,
            { world := (sampleRouter.clique.VerifyUncles () (sampleBlock 360374 [360373]) 0).2
              trace := [] ++
                [(EngineKind.PoA, Call.VerifyUncles () (sampleBlock 360374 [360373]))] }) :=
  ⟨rfl, List.mem_singleton.mpr rfl, by decide,
    (verifyUncles_routed_by_block_number sampleRouter ()).2 (sampleBlock 360374 [360373]) rfl
      (sampleHeader 360373) (List.mem_singleton.mpr rfl) (by decide) ⟨0, []⟩⟩

/-- C7: `Author` returns the header's coinbase and a nil error and calls neither
engine (the world and the trace of engine calls are left as they were); the
result is the same whatever the header's number is. -/
theorem author_returns_coinbase (o : Otonomos S W) (header : Header S) :
    (∀ x : Exec S W, o.observe.Author header x = ((header.Coinbase, none), x))
      ∧ (∀ x : Exec S W,
          o.observe.invoke (.Author header) x = (Ret.author header.Coinbase none, x))
      ∧ (∀ (n : Int) (w : W),
          o.Author { header with Number := n } w = ((header.Coinbase, none), w)) :=
  ⟨fun _ => rfl, fun _ => rfl, fun _ _ => rfl⟩

/-- C8: `APIs` returns the list that the PoA engine's `APIs` returns for the same
chain, unchanged, through exactly one engine call, which goes to the PoA engine;
the result is the same whatever the PoW engine and the switch height are. -/
theorem apis_delegates_to_poa (o : Otonomos S W) (chain : S.ChainReader) :
    (∀ x : Exec S W,
        o.observe.APIs chain x =
          ((o.clique.APIs chain x.world).1,
            { world := (o.clique.APIs chain x.world).2
              trace := x.trace ++ [(EngineKind.PoA, Call.APIs chain)] }))
      ∧ o.APIs chain = o.clique.APIs chain
      ∧ (∀ (pow : Engine S W) (powStartBlock : GoInt64),
          ({ o with pow := pow, powStartBlock := powStartBlock } : Otonomos S W).APIs chain =
            o.clique.APIs chain) :=
  ⟨fun _ => rfl, rfl, fun _ _ => rfl⟩

/-- C9: the router built by `New` has the switch height 360374 and compares the
`int64` conversion of the header number against it; for every header or block
number `n` with `0 ≤ n < 2^63` the conversion is exact, and each routed method
calls the PoW engine when `n < 360374` and the PoA engine otherwise. -/
theorem new_routes_on_int64_at_360374
    (ethashNew : String → Int → Int → String → Int → Int → Engine S W)
    (cliqueNew : CliqueConfig → S.Database → Engine S W)
    (cachedir : String) (cachesinmem cachesondisk : Int) (dagdir : String)
    (dagsinmem dagsondisk : Int) (config : S.OtonomosConfig) (db : S.Database)
    (c : Call S) (n : Int) (hc : c.routedNumber = some n) (h0 : 0 ≤ n) (hhi : n < 2 ^ 63)
    (x : Exec S W) :
    (New ethashNew cliqueNew cachedir cachesinmem cachesondisk dagdir dagsinmem dagsondisk
        config db).powStartBlock.val = 360374
      ∧ (BigInt.Int64 n).val = n
      ∧ (New ethashNew cliqueNew cachedir cachesinmem cachesondisk dagdir dagsinmem dagsondisk
          config db).observe.invoke c x =
        if n < 360374 then
          (((ethashNew cachedir cachesinmem cachesondisk dagdir dagsinmem dagsondisk).invoke c
              x.world).1,
            { world := ((ethashNew cachedir cachesinmem cachesondisk dagdir dagsinmem
                dagsondisk).invoke c x.world).2
              trace := x.trace ++ [(EngineKind.PoW, c)] })
        else
          (((cliqueNew { Period := 15, Epoch := 30000 } db).invoke c x.world).1,
            { world := ((cliqueNew { Period := 15, Epoch := 30000 } db).invoke c x.world).2
              trace := x.trace ++ [(EngineKind.PoA, c)] }) := by
  have hfit : (BigInt.Int64 n).val = n := BigInt.Int64_of_fits n (by omega) hhi
  refine ⟨rfl, hfit, ?_⟩
  rw [invoke_observe_routed _ c n hc x, hfit]
  by_cases h : n < 360374
  · have hr : route (New ethashNew cliqueNew cachedir cachesinmem cachesondisk dagdir dagsinmem
        dagsondisk config db).powStartBlock.val n = EngineKind.PoW := by
      simp [route, New, h]
    rw [hr, if_pos h]; rfl
  · have hr : route (New ethashNew cliqueNew cachedir cachesinmem cachesondisk dagdir dagsinmem
        dagsondisk config db).powStartBlock.val n = EngineKind.PoA := by
      simp [route, New, h]
    rw [hr, if_neg h]; rfl

/-- Witness of C9: `Prepare` on header number 360373, the last PoW block. -/
theorem new_routes_on_int64_at_360374_witness :
    (Call.Prepare () (sampleHeader 360373) : Call sampleTypes).routedNumber = some 360373
      ∧ (0 : Int) ≤ 360373 ∧ (360373 : Int) < 2 ^ 63
      ∧ (sampleRouter.observe.invoke (.Prepare () (sampleHeader 360373)) ⟨0, []⟩).2.trace =
          [(EngineKind.PoW, Call.Prepare () (sampleHeader 360373))] :=
  ⟨rfl, by norm_num, by norm_num,
    congrArg (fun r => r.2.trace)
      (new_routes_on_int64_at_360374 (fun _ _ _ _ _ _ => sampleEngine 100)
        (fun _ _ => sampleEngine 200) "" 0 0 "" 0 0 () () (.Prepare () (sampleHeader 360373))
        360373 rfl (by norm_num) (by norm_num) ⟨0, []⟩).2.2⟩

/-- C6 (amended): every routed method (VerifyHeader, VerifyUncles, VerifySeal,
Prepare, Finalize, Seal) and the per-header step of `VerifyHeaders` select the
same engine for a header or block number `n`, namely `route` applied to the
`int64` conversion of `n`; no two of them disagree on any number, the switch
block included; and for `-2^63 ≤ n < 2^63` this is `route` applied to `n` itself. -/
theorem routed_methods_share_route (o : Otonomos S W) (c : Call S) (n : Int)
    (hc : c.routedNumber = some n) (x : Exec S W) :
    o.observe.invoke c x =
        (((o.engine (route o.powStartBlock.val (BigInt.Int64 n).val)).invoke c x.world).1,
          { world :=
              ((o.engine (route o.powStartBlock.val (BigInt.Int64 n).val)).invoke c x.world).2
            trace := x.trace ++ [(route o.powStartBlock.val (BigInt.Int64 n).val, c)] })
      ∧ (-2 ^ 63 ≤ n → n < 2 ^ 63 →
          route o.powStartBlock.val (BigInt.Int64 n).val = route o.powStartBlock.val n)
      ∧ (∀ (chain : S.ChainReader) (headers : List (Header S)) (seals : List Bool)
          (s : VerifyHeaders.State S (Exec S W)) (i : Nat) (header : Header S) (sealFlag : Bool),
          s.worker = .loop i → headers[i]? = some header → seals[i]? = some sealFlag →
          VerifyHeaders.step o.observe chain headers seals .worker s =
            some { s with
              worker := .select i (o.observe.VerifyHeader chain header sealFlag s.world).1
              world := (o.observe.VerifyHeader chain header sealFlag s.world).2 }) := by
  refine ⟨invoke_observe_routed o c n hc x, ?_, ?_⟩
  · intro hlo hhi
    rw [BigInt.Int64_of_fits n hlo hhi]
  · intro chain headers seals s i header sealFlag hw hh hb
    simp [VerifyHeaders.step, hw, hh, hb, VerifyHeader]

/-- Witness of C6 (amended): `Finalize` on header number 360374. -/
theorem routed_methods_share_route_witness :
    (Call.Finalize () (sampleHeader 360374) () [] [] [] : Call sampleTypes).routedNumber =
        some 360374
      ∧ (sampleRouter.observe.invoke (.Finalize () (sampleHeader 360374) () [] [] [])
          ⟨0, []⟩).2.trace =
        [(route sampleRouter.powStartBlock.val (BigInt.Int64 360374).val,
          Call.Finalize () (sampleHeader 360374) () [] [] [])] :=
  ⟨rfl,
    congrArg (fun r => r.2.trace)
      (routed_methods_share_route sampleRouter (.Finalize () (sampleHeader 360374) () [] [] [])
        360374 rfl ⟨0, []⟩).1⟩

/-- Counterexample to C6 as stated: for the header number `2^64 + 5` the predicate
`route` of the specification answers PoA, while `Prepare` calls the PoW engine. -/
theorem routed_methods_share_route_counterexample :
    (Call.Prepare () (sampleHeader 18446744073709551621) : Call sampleTypes).routedNumber =
        some 18446744073709551621
      ∧ route sampleRouter.powStartBlock.val 18446744073709551621 = EngineKind.PoA
      ∧ (sampleRouter.observe.invoke (.Prepare () (sampleHeader 18446744073709551621))
          ⟨0, []⟩).2.trace.map Prod.fst = [EngineKind.PoW] := by
  refine ⟨rfl, by decide, by decide⟩

/-! ## VerifyHeaders -/

/-- With no header left, `verifyEach` yields nothing. -/
theorem verifyEach_nil (o : Otonomos S W) (chain : S.ChainReader) (seals : List Bool) (w : W) :
    verifyEach o chain [] seals w = [] := by
  simp [verifyEach]

/-- With at least as many seal flags as headers, `verifyEach` yields one result
for every header. -/
theorem verifyEach_length (o : Otonomos S W) (chain : S.ChainReader) (headers : List (Header S)) :
    ∀ (seals : List Bool) (w : W), headers.length ≤ seals.length →
      (verifyEach o chain headers seals w).length = headers.length := by
  induction headers with
  | nil => intro seals w _; simp [verifyEach]
  | cons header headers ih =>
    intro seals w hlen
    cases seals with
    | nil => simp at hlen
    | cons sealFlag seals =>
      simp only [verifyEach, List.length_cons]
      rw [ih seals _ (by simpa using hlen)]

/-- A list from an index that holds an element on: that element, then the list
from the next index on. -/
theorem drop_of_getElem? {α : Type} (l : List α) :
    ∀ (i : Nat) (a : α), l[i]? = some a → l.drop i = a :: l.drop (i + 1) := by
  induction l with
  | nil => intro i a h; simp at h
  | cons b l ih =>
    intro i a h
    cases i with
    | zero => simp at h; simp [h]
    | succ i => simp at h; simpa using ih i a h

/-- A list from an index that holds no element on is empty. -/
theorem drop_of_getElem?_none {α : Type} (l : List α) (i : Nat) (h : l[i]? = none) :
    l.drop i = [] := by
  rw [List.getElem?_eq_none_iff] at h
  exact List.drop_eq_nil_of_le h

/-- The results of `verifyEach` from index `i` on start with the result of
`VerifyHeader` for `headers[i]` and `seals[i]`. -/
theorem verifyEach_drop (o : Otonomos S W) (chain : S.ChainReader) (headers : List (Header S))
    (seals : List Bool) (i : Nat) (header : Header S) (sealFlag : Bool) (w : W)
    (hh : headers[i]? = some header) (hb : seals[i]? = some sealFlag) :
    verifyEach o chain (headers.drop i) (seals.drop i) w =
      (o.VerifyHeader chain header sealFlag w).1 ::
        verifyEach o chain (headers.drop (i + 1)) (seals.drop (i + 1))
          (o.VerifyHeader chain header sealFlag w).2 := by
  rw [drop_of_getElem? headers i header hh, drop_of_getElem? seals i sealFlag hb]
  simp [verifyEach]

/-- The `i`-th result of `verifyEach` is the value `VerifyHeader` returns for
`headers[i]` with `seals[i]`, in the world left by the calls for the headers before it. -/
theorem verifyEach_getElem? (o : Otonomos S W) (chain : S.ChainReader)
    (headers : List (Header S)) :
    ∀ (seals : List Bool) (w : W) (i : Nat) (header : Header S) (sealFlag : Bool),
      headers[i]? = some header → seals[i]? = some sealFlag →
      (verifyEach o chain headers seals w)[i]? =
        some (o.VerifyHeader chain header sealFlag
          (worldAfter o chain (headers.take i) (seals.take i) w)).1 := by
  induction headers with
  | nil => intro seals w i header sealFlag hh; simp at hh
  | cons h0 headers ih =>
    intro seals w i header sealFlag hh hb
    cases seals with
    | nil => simp at hb
    | cons b0 seals =>
      cases i with
      | zero =>
        simp at hh hb
        subst hh; subst hb
        simp [verifyEach, worldAfter]
      | succ i =>
        simp at hh hb
        simp [verifyEach, worldAfter, ih seals _ i header sealFlag hh hb]

namespace VerifyHeaders

/-- The state that `VerifyHeaders` leaves behind satisfies the invariant. -/
theorem inv_init (o : Otonomos S W) (chain : S.ChainReader) (headers : List (Header S))
    (seals : List Bool) (w : W) :
    Inv o chain headers seals w (VerifyHeaders o chain headers seals w) :=
  ⟨verifyEach o chain headers seals w, by simp [VerifyHeaders, State.published],
    by simp [VerifyHeaders, State.published]⟩

/-- Every move keeps the invariant. -/
theorem inv_step (o : Otonomos S W) (chain : S.ChainReader) (headers : List (Header S))
    (seals : List Bool) (w0 : W) (hlen : headers.length ≤ seals.length) (e : Event)
    (s s' : State S W) (hinv : Inv o chain headers seals w0 s)
    (hstep : step o chain headers seals e s = some s') : Inv o chain headers seals w0 s' := by
  obtain ⟨rest, hfull, hw⟩ := hinv
  obtain ⟨worker, world, results, received, abort⟩ := s
  cases e with
  | worker =>
    cases worker with
    | loop i =>
      simp only at hw
      obtain ⟨hi, hrest⟩ := hw
      cases hh : headers[i]? with
      | none =>
        simp [step, hh] at hstep
        subst hstep
        refine ⟨rest, hfull, ?_⟩
        intro _
        rw [hrest, drop_of_getElem?_none headers i hh]
        exact verifyEach_nil o chain _ _
      | some header =>
        have hlt : i < headers.length := by
          by_contra hge
          rw [List.getElem?_eq_none_iff.mpr (not_lt.mp hge)] at hh
          cases hh
        cases hb : seals[i]? with
        | none =>
          rw [List.getElem?_eq_none_iff] at hb
          omega
        | some sealFlag =>
          simp [step, hh, hb] at hstep
          subst hstep
          refine ⟨rest, hfull, hi, hlt, ?_⟩
          rw [hrest]
          exact verifyEach_drop o chain headers seals i header sealFlag world hh hb
    | select i err =>
      simp only at hw
      obtain ⟨hi, hlt, hrest⟩ := hw
      by_cases hroom : results.length < headers.length
      · simp [step, hroom] at hstep
        subst hstep
        refine ⟨verifyEach o chain (headers.drop (i + 1)) (seals.drop (i + 1)) world, ?_, ?_, rfl⟩
        · rw [hfull, hrest]; simp [State.published]
        · simp [State.published] at hi ⊢; omega
      · simp [step, hroom] at hstep
    | returned => simp [step] at hstep
    | panicked => simp [step] at hstep
  | workerAbort =>
    cases worker with
    | select i err =>
      by_cases ha : abort = true
      · simp [step, ha] at hstep
        subst hstep
        exact ⟨rest, hfull, by simp [ha]⟩
      · simp [step, ha] at hstep
    | loop i => simp [step] at hstep
    | returned => simp [step] at hstep
    | panicked => simp [step] at hstep
  | recv =>
    cases results with
    | nil => simp [step] at hstep
    | cons r rs =>
      simp [step] at hstep
      subst hstep
      refine ⟨rest, by simpa [State.published] using hfull, ?_⟩
      cases worker
      · simpa [State.published] using hw
      · simpa [State.published] using hw
      · exact hw
      · exact hw
  | abort =>
    simp [step] at hstep
    subst hstep
    refine ⟨rest, hfull, ?_⟩
    cases worker
    · exact hw
    · exact hw
    · intro h; cases h
    · exact hw

/-- Every schedule keeps the invariant. -/
theorem inv_run (o : Otonomos S W) (chain : S.ChainReader) (headers : List (Header S))
    (seals : List Bool) (w0 : W) (hlen : headers.length ≤ seals.length) (es : List Event) :
    ∀ s s' : State S W, Inv o chain headers seals w0 s →
      run o chain headers seals es s = some s' → Inv o chain headers seals w0 s' := by
  induction es with
  | nil => intro s s' hinv hrun; simp [run] at hrun; subst hrun; exact hinv
  | cons e es ih =>
    intro s s' hinv hrun
    simp only [run] at hrun
    cases hstep : step o chain headers seals e s with
    | none => simp [hstep] at hrun
    | some s1 =>
      simp [hstep] at hrun
      exact ih s1 s' (inv_step o chain headers seals w0 hlen e s s1 hinv hstep) hrun

/-- What the invariant says about the values sent so far: they are the first
results of `verifyEach`, and there are at most as many as headers. -/
theorem inv_published (o : Otonomos S W) (chain : S.ChainReader) (headers : List (Header S))
    (seals : List Bool) (w0 : W) (hlen : headers.length ≤ seals.length) (s : State S W)
    (hinv : Inv o chain headers seals w0 s) :
    s.published = (verifyEach o chain headers seals w0).take s.published.length
      ∧ s.published.length ≤ headers.length := by
  obtain ⟨rest, hfull, _⟩ := hinv
  have hl := verifyEach_length o chain headers seals w0 hlen
  constructor
  · rw [hfull]; simp
  · rw [hfull, List.length_append] at hl; omega

/-- A worker that has not ended can make its next move, which leaves it with less fuel
and does not touch the abort signal. -/
theorem worker_progress (o : Otonomos S W) (chain : S.ChainReader) (headers : List (Header S))
    (seals : List Bool) (w0 : W) (hlen : headers.length ≤ seals.length) (s : State S W)
    (hinv : Inv o chain headers seals w0 s) (hnr : s.worker ≠ .returned) :
    ∃ s', step o chain headers seals .worker s = some s' ∧ fuel headers s' < fuel headers s
      ∧ s'.abort = s.abort := by
  have hpub := (inv_published o chain headers seals w0 hlen s hinv).2
  obtain ⟨rest, hfull, hw⟩ := hinv
  obtain ⟨worker, world, results, received, abort⟩ := s
  cases worker with
  | loop i =>
    cases hh : headers[i]? with
    | none =>
      exact ⟨{ worker := .returned, world := world, results := results,
               received := received, abort := abort }, by simp [step, hh], by simp [fuel], rfl⟩
    | some header =>
      have hlt : i < headers.length := by
        by_contra hge
        rw [List.getElem?_eq_none_iff.mpr (not_lt.mp hge)] at hh
        cases hh
      cases hb : seals[i]? with
      | none =>
        rw [List.getElem?_eq_none_iff] at hb
        omega
      | some sealFlag =>
        exact ⟨{ worker := .select i (o.verifyHeader chain header sealFlag world).1,
                 world := (o.verifyHeader chain header sealFlag world).2,
                 results := results, received := received, abort := abort },
          by simp [step, hh, hb], by simp [fuel], rfl⟩
  | select i err =>
    simp only at hw
    obtain ⟨hi, hlt, _⟩ := hw
    have hroom : results.length < headers.length := by
      simp [State.published] at hi
      omega
    exact ⟨{ worker := .loop (i + 1), world := world, results := results ++ [err],
             received := received, abort := abort },
      by simp [step, hroom], by simp [fuel]; omega, rfl⟩
  | returned => exact absurd rfl hnr
  | panicked => exact hw.elim

/-- Left to run, the worker ends within its fuel; when the abort was never
signalled it has then sent every result of `verifyEach`. -/
theorem worker_completes (o : Otonomos S W) (chain : S.ChainReader) (headers : List (Header S))
    (seals : List Bool) (w0 : W) (hlen : headers.length ≤ seals.length) :
    ∀ (n : Nat) (s : State S W), fuel headers s ≤ n → Inv o chain headers seals w0 s →
      s.abort = false →
      ∃ k, k ≤ n ∧ ∃ s', run o chain headers seals (List.replicate k Event.worker) s = some s'
        ∧ s'.worker = .returned ∧ s'.published = verifyEach o chain headers seals w0 := by
  intro n
  induction n with
  | zero =>
    intro s hf hinv ha
    by_cases hr : s.worker = .returned
    · refine ⟨0, le_refl _, s, rfl, hr, ?_⟩
      obtain ⟨rest, hfull, hw⟩ := hinv
      rw [hr] at hw
      rw [hfull, hw ha, List.append_nil]
    · obtain ⟨s', _, hlt, _⟩ := worker_progress o chain headers seals w0 hlen s hinv hr
      omega
  | succ n ih =>
    intro s hf hinv ha
    by_cases hr : s.worker = .returned
    · refine ⟨0, Nat.zero_le _, s, rfl, hr, ?_⟩
      obtain ⟨rest, hfull, hw⟩ := hinv
      rw [hr] at hw
      rw [hfull, hw ha, List.append_nil]
    · obtain ⟨s1, hstep, hlt, hab⟩ := worker_progress o chain headers seals w0 hlen s hinv hr
      have hinv1 := inv_step o chain headers seals w0 hlen .worker s s1 hinv hstep
      obtain ⟨k, hk, s', hrun, hdone⟩ := ih s1 (by omega) hinv1 (by rw [hab, ha])
      refine ⟨k + 1, by omega, s', ?_, hdone⟩
      simp [List.replicate_succ, run, hstep, hrun]

/-- A move other than the caller's abort leaves the abort signal as it was. -/
theorem step_abort_eq (o : Otonomos S W) (chain : S.ChainReader) (headers : List (Header S))
    (seals : List Bool) (e : Event) (s s' : State S W) (he : e ≠ Event.abort)
    (hstep : step o chain headers seals e s = some s') : s'.abort = s.abort := by
  obtain ⟨worker, world, results, received, abort⟩ := s
  cases e with
  | worker =>
    cases worker with
    | loop i =>
      cases hh : headers[i]? with
      | none => simp [step, hh] at hstep; subst hstep; rfl
      | some header =>
        cases hb : seals[i]? with
        | none => simp [step, hh, hb] at hstep; subst hstep; rfl
        | some sealFlag => simp [step, hh, hb] at hstep; subst hstep; rfl
    | select i err =>
      by_cases hroom : results.length < headers.length
      · simp [step, hroom] at hstep; subst hstep; rfl
      · simp [step, hroom] at hstep
    | returned => simp [step] at hstep
    | panicked => simp [step] at hstep
  | workerAbort =>
    cases worker with
    | select i err =>
      cases abort with
      | true => simp [step] at hstep; subst hstep; rfl
      | false => simp [step] at hstep
    | loop i => simp [step] at hstep
    | returned => simp [step] at hstep
    | panicked => simp [step] at hstep
  | recv =>
    cases results with
    | nil => simp [step] at hstep
    | cons r rs => simp [step] at hstep; subst hstep; rfl
  | abort => exact absurd rfl he

/-- A schedule without the caller's abort leaves the abort signal as it was. -/
theorem run_abort_eq (o : Otonomos S W) (chain : S.ChainReader) (headers : List (Header S))
    (seals : List Bool) (es : List Event) :
    ∀ s s' : State S W, Event.abort ∉ es → run o chain headers seals es s = some s' →
      s'.abort = s.abort := by
  induction es with
  | nil => intro s s' _ hrun; simp [run] at hrun; subst hrun; rfl
  | cons e es ih =>
    intro s s' hna hrun
    simp only [run] at hrun
    cases hstep : step o chain headers seals e s with
    | none => simp [hstep] at hrun
    | some s1 =>
      simp [hstep] at hrun
      have h1 : e ≠ Event.abort := fun h => hna (by simp [h])
      have h2 : Event.abort ∉ es := fun h => hna (by simp [h])
      rw [ih s1 s' h2 hrun, step_abort_eq o chain headers seals e s s1 h1 hstep]

/-- No move takes back a value the caller has received, and no move of a state whose
worker has ended sends a value or revives the worker. -/
theorem step_received_le (o : Otonomos S W) (chain : S.ChainReader) (headers : List (Header S))
    (seals : List Bool) (e : Event) (s s' : State S W)
    (hstep : step o chain headers seals e s = some s') :
    s.received.length ≤ s'.received.length
      ∧ (s.worker = .returned → s'.worker = .returned ∧ s'.published = s.published) := by
  obtain ⟨worker, world, results, received, abort⟩ := s
  cases e with
  | worker =>
    cases worker with
    | loop i =>
      cases hh : headers[i]? with
      | none => simp [step, hh] at hstep; subst hstep; simp
      | some header =>
        cases hb : seals[i]? with
        | none => simp [step, hh, hb] at hstep; subst hstep; simp
        | some sealFlag => simp [step, hh, hb] at hstep; subst hstep; simp
    | select i err =>
      by_cases hroom : results.length < headers.length
      · simp [step, hroom] at hstep; subst hstep; simp
      · simp [step, hroom] at hstep
    | returned => simp [step] at hstep
    | panicked => simp [step] at hstep
  | workerAbort =>
    cases worker with
    | select i err =>
      cases abort with
      | true => simp [step] at hstep; subst hstep; simp
      | false => simp [step] at hstep
    | loop i => simp [step] at hstep
    | returned => simp [step] at hstep
    | panicked => simp [step] at hstep
  | recv =>
    cases results with
    | nil => simp [step] at hstep
    | cons r rs => simp [step] at hstep; subst hstep; simp [State.published]
  | abort => simp [step] at hstep; subst hstep; simp [State.published]

/-- The same for a whole schedule. -/
theorem run_received_le (o : Otonomos S W) (chain : S.ChainReader) (headers : List (Header S))
    (seals : List Bool) (es : List Event) :
    ∀ s s' : State S W, run o chain headers seals es s = some s' →
      s.received.length ≤ s'.received.length
        ∧ (s.worker = .returned → s'.worker = .returned ∧ s'.published = s.published) := by
  induction es with
  | nil => intro s s' hrun; simp [run] at hrun; subst hrun; simp
  | cons e es ih =>
    intro s s' hrun
    simp only [run] at hrun
    cases hstep : step o chain headers seals e s with
    | none => simp [hstep] at hrun
    | some s1 =>
      simp [hstep] at hrun
      obtain ⟨h1, h2⟩ := step_received_le o chain headers seals e s s1 hstep
      obtain ⟨h3, h4⟩ := ih s1 s' hrun
      refine ⟨le_trans h1 h3, fun hr => ?_⟩
      obtain ⟨h5, h6⟩ := h2 hr
      obtain ⟨h7, h8⟩ := h4 h5
      exact ⟨h7, h8.trans h6⟩

/-- The fuel of a state never exceeds that of the initial state. -/
theorem fuel_le (headers : List (Header S)) (s : State S W) :
    fuel headers s ≤ 2 * headers.length + 1 := by
  obtain ⟨worker, world, results, received, abort⟩ := s
  cases worker <;> simp only [fuel] <;> omega

/-- A worker at the `select` that takes the abort case has ended, having sent nothing more. -/
theorem step_workerAbort (o : Otonomos S W) (chain : S.ChainReader) (headers : List (Header S))
    (seals : List Bool) (s s' : State S W)
    (hstep : step o chain headers seals .workerAbort s = some s') :
    s'.worker = .returned ∧ s'.published = s.published := by
  obtain ⟨worker, world, results, received, abort⟩ := s
  cases worker with
  | select i err =>
    cases abort with
    | true => simp [step] at hstep; subst hstep; simp [State.published]
    | false => simp [step] at hstep
  | loop i => simp [step] at hstep
  | returned => simp [step] at hstep
  | panicked => simp [step] at hstep

/-- The caller can receive, one by one, all the values waiting in the results buffer. -/
theorem run_recv_all (o : Otonomos S W) (chain : S.ChainReader) (headers : List (Header S))
    (seals : List Bool) :
    ∀ (rs : List (GoError S)) (s : State S W), s.results = rs →
      run o chain headers seals (List.replicate rs.length Event.recv) s =
        some { s with results := [], received := s.received ++ rs } := by
  intro rs
  induction rs with
  | nil =>
    intro s hs
    obtain ⟨worker, world, results, received, abort⟩ := s
    simp only at hs
    subst hs
    simp [run]
  | cons r rs ih =>
    intro s hs
    obtain ⟨worker, world, results, received, abort⟩ := s
    simp only at hs
    subst hs
    simp only [List.length_cons, List.replicate_succ, run, step, Option.some_bind]
    rw [ih { worker := worker, world := world, results := rs, received := received ++ [r],
             abort := abort } rfl]
    simp

/-- Only the `select` taking the send puts a value on the results channel. -/
theorem step_published_eq (o : Otonomos S W) (chain : S.ChainReader) (headers : List (Header S))
    (seals : List Bool) (e : Event) (s s' : State S W) (hns : takesSend e s.worker = false)
    (hstep : step o chain headers seals e s = some s') : s'.published = s.published := by
  obtain ⟨worker, world, results, received, abort⟩ := s
  cases e with
  | worker =>
    cases worker with
    | loop i =>
      cases hh : headers[i]? with
      | none => simp [step, hh] at hstep; subst hstep; rfl
      | some header =>
        cases hb : seals[i]? with
        | none => simp [step, hh, hb] at hstep; subst hstep; rfl
        | some sealFlag => simp [step, hh, hb] at hstep; subst hstep; rfl
    | select i err => simp [takesSend] at hns
    | returned => simp [step] at hstep
    | panicked => simp [step] at hstep
  | workerAbort =>
    exact (step_workerAbort o chain headers seals _ s' hstep).2
  | recv =>
    cases results with
    | nil => simp [step] at hstep
    | cons r rs => simp [step] at hstep; subst hstep; simp [State.published]
  | abort => simp [step] at hstep; subst hstep; rfl

/-- Along a schedule on which the `select` never takes the send, nothing is sent. -/
theorem run_neverSends (o : Otonomos S W) (chain : S.ChainReader) (headers : List (Header S))
    (seals : List Bool) (es : List Event) :
    ∀ s s' : State S W, neverSends o chain headers seals es s = true →
      run o chain headers seals es s = some s' → s'.published = s.published := by
  induction es with
  | nil => intro s s' _ hrun; simp [run] at hrun; subst hrun; rfl
  | cons e es ih =>
    intro s s' hns hrun
    simp only [run] at hrun
    cases hstep : step o chain headers seals e s with
    | none => simp [hstep] at hrun
    | some s1 =>
      simp [hstep] at hrun
      simp only [neverSends, hstep, Bool.and_eq_true, Bool.not_eq_true'] at hns
      rw [ih s1 s' hns.2 hrun, step_published_eq o chain headers seals e s s1 hns.1 hstep]

/-- Once signalled, the abort stays signalled. -/
theorem run_abort_true (o : Otonomos S W) (chain : S.ChainReader) (headers : List (Header S))
    (seals : List Bool) (es : List Event) :
    ∀ s s' : State S W, s.abort = true → run o chain headers seals es s = some s' →
      s'.abort = true := by
  induction es with
  | nil => intro s s' ha hrun; simp [run] at hrun; subst hrun; exact ha
  | cons e es ih =>
    intro s s' ha hrun
    simp only [run] at hrun
    cases hstep : step o chain headers seals e s with
    | none => simp [hstep] at hrun
    | some s1 =>
      simp [hstep] at hrun
      refine ih s1 s' ?_ hrun
      by_cases he : e = Event.abort
      · subst he
        simp [step] at hstep
        subst hstep
        rfl
      · rw [step_abort_eq o chain headers seals e s s1 he hstep, ha]

/-- Once the abort is signalled, the worker's `select` can take the abort case, and
doing so ends the worker. -/
theorem workerAbort_enabled (o : Otonomos S W) (chain : S.ChainReader)
    (headers : List (Header S)) (seals : List Bool) (s : State S W) (i : Nat) (err : GoError S)
    (ha : s.abort = true) (hs : s.worker = .select i err) :
    step o chain headers seals .workerAbort s = some { s with worker := .returned } := by
  simp [step, hs, ha]

/-- Once the abort is signalled, the worker can be brought to its end within two
of its moves without anything being sent: it ends at the loop head when the range
is exhausted, and otherwise at its next `select`, by the abort case. -/
theorem abort_can_end_worker (o : Otonomos S W) (chain : S.ChainReader)
    (headers : List (Header S)) (seals : List Bool) (w0 : W)
    (hlen : headers.length ≤ seals.length) (s : State S W)
    (hinv : Inv o chain headers seals w0 s) (ha : s.abort = true) :
    ∃ es : List Event, es.length ≤ 2 ∧ neverSends o chain headers seals es s = true ∧
      ∃ s3, run o chain headers seals es s = some s3 ∧ s3.worker = .returned
        ∧ s3.published = s.published := by
  obtain ⟨rest, hfull, hw⟩ := hinv
  obtain ⟨worker, world, results, received, abort⟩ := s
  simp only at ha
  subst ha
  cases worker with
  | loop i =>
    cases hh : headers[i]? with
    | none =>
      exact ⟨[Event.worker], by simp, by simp [neverSends, takesSend, step, hh],
        { worker := .returned, world := world, results := results,
          received := received, abort := true },
        by simp [run, step, hh], rfl, rfl⟩
    | some header =>
      have hlt : i < headers.length := by
        by_contra hge
        rw [List.getElem?_eq_none_iff.mpr (not_lt.mp hge)] at hh
        cases hh
      cases hb : seals[i]? with
      | none =>
        rw [List.getElem?_eq_none_iff] at hb
        omega
      | some sealFlag =>
        exact ⟨[Event.worker, Event.workerAbort], by simp,
          by simp [neverSends, takesSend, step, hh, hb],
          { worker := .returned, world := (o.verifyHeader chain header sealFlag world).2,
            results := results, received := received, abort := true },
          by simp [run, step, hh, hb], rfl, rfl⟩
  | select i err =>
    exact ⟨[Event.workerAbort], by simp, by simp [neverSends, takesSend, step],
      { worker := .returned, world := world, results := results,
        received := received, abort := true },
      by simp [run, step], rfl, rfl⟩
  | returned =>
    exact ⟨[], by simp, by simp [neverSends],
      { worker := .returned, world := world, results := results,
        received := received, abort := true },
      by simp [run], rfl, rfl⟩
  | panicked => exact hw.elim

end VerifyHeaders

open VerifyHeaders

/-- C3: `VerifyHeaders` called with N headers and N seal flags and never aborted:
in every state the never-aborted system reaches, the values sent on the results
channel (and those the caller has received) are the first results of
`verifyEach`, in input order; the worker, left to run, ends within `2N + 1` moves,
and once it has ended exactly the N results of `verifyEach` have been sent, which
the caller can then receive, all of them and in that order. The `i`-th of them is
the value `VerifyHeader` returns for `headers[i]` with `seals[i]`. -/
theorem verifyHeaders_delivers_all_in_order (o : Otonomos S W) (chain : S.ChainReader)
    (headers : List (Header S)) (seals : List Bool) (w : W)
    (hlen : seals.length = headers.length) (es : List Event) (hna : Event.abort ∉ es)
    (s : State S W)
    (hrun : run o chain headers seals es (VerifyHeaders o chain headers seals w) = some s) :
    (verifyEach o chain headers seals w).length = headers.length
      ∧ (∀ (i : Nat) (header : Header S) (sealFlag : Bool),
          headers[i]? = some header → seals[i]? = some sealFlag →
          (verifyEach o chain headers seals w)[i]? =
            some (o.VerifyHeader chain header sealFlag
              (worldAfter o chain (headers.take i) (seals.take i) w)).1)
      ∧ s.published = (verifyEach o chain headers seals w).take s.published.length
      ∧ s.received = (verifyEach o chain headers seals w).take s.received.length
      ∧ (s.worker = .returned → s.published = verifyEach o chain headers seals w)
      ∧ (∃ k, k ≤ 2 * headers.length + 1 ∧ ∃ s',
          run o chain headers seals (List.replicate k Event.worker) s = some s'
            ∧ s'.worker = .returned ∧ s'.published = verifyEach o chain headers seals w
            ∧ s'.published.length = headers.length
            ∧ ∃ s'', run o chain headers seals (List.replicate s'.results.length Event.recv) s' =
                some s''
              ∧ s''.received = verifyEach o chain headers seals w ∧ s''.results = []) := by
  have hle : headers.length ≤ seals.length := le_of_eq hlen.symm
  have hinv := inv_run o chain headers seals w hle es _ s (inv_init o chain headers seals w) hrun
  have hab : s.abort = false := by
    rw [run_abort_eq o chain headers seals es _ s hna hrun]; rfl
  have hl := verifyEach_length o chain headers seals w hle
  refine ⟨hl, ?_, (inv_published o chain headers seals w hle s hinv).1, ?_, ?_, ?_⟩
  · intro i header sealFlag hh hb
    exact verifyEach_getElem? o chain headers seals w i header sealFlag hh hb
  · obtain ⟨rest, hfull, _⟩ := hinv
    rw [hfull]
    simp [State.published, List.append_assoc]
  · intro hr
    obtain ⟨rest, hfull, hw⟩ := hinv
    rw [hr] at hw
    rw [hfull, hw hab, List.append_nil]
  · obtain ⟨k, hk, s', hrun', hdone, hpub⟩ :=
      worker_completes o chain headers seals w hle (2 * headers.length + 1) s
        (fuel_le headers s) hinv hab
    exact ⟨k, hk, s', hrun', hdone, hpub, by rw [hpub, hl], _,
      run_recv_all o chain headers seals s'.results s' rfl, hpub, rfl⟩

/-- Witness of C3: two headers, one on each side of the switch height; the worker
has handled the first, and the caller has received its result. -/
theorem verifyHeaders_delivers_all_in_order_witness :
    [true, false].length = [sampleHeader 360373, sampleHeader 360374].length
      ∧ Event.abort ∉ [Event.worker, Event.worker, Event.recv]
      ∧ run sampleRouter () [sampleHeader 360373, sampleHeader 360374] [true, false]
          [Event.worker, Event.worker, Event.recv]
          (VerifyHeaders sampleRouter () [sampleHeader 360373, sampleHeader 360374]
            [true, false] 0) =
        some { worker := .loop 1, world := 1, results := [], received := [some 360473],
               abort := false }
      ∧ (verifyEach sampleRouter () [sampleHeader 360373, sampleHeader 360374]
          [true, false] 0).length = 2 :=
  ⟨rfl, by decide, rfl,
    (verifyHeaders_delivers_all_in_order sampleRouter ()
      [sampleHeader 360373, sampleHeader 360374] [true, false] 0 rfl
      [Event.worker, Event.worker, Event.recv] (by decide)
      { worker := .loop 1, world := 1, results := [], received := [some 360473],
        abort := false } rfl).1⟩

/-- C4 (amended): if the abort is signalled when the caller has consumed K results,
then the abort stays signalled and the worker's `select` can take the abort case,
which ends the worker; the worker can so be brought to its end within two of its
moves, nothing further being sent. If from the signal on the abort wins every
`select` (the send is never taken), the worker publishes no further results: the
values ever sent are those sent before the signal, exactly K of them when the
caller had by then consumed all that was sent. Whatever the `select` takes, the
values ever sent number at least K and at most N and are the first results of
`verifyEach`, in input order, and a worker that has ended sends nothing more. -/
theorem abort_ends_worker_without_further_results (o : Otonomos S W) (chain : S.ChainReader)
    (headers : List (Header S)) (seals : List Bool) (w : W)
    (hlen : headers.length ≤ seals.length) (K : Nat) (before after : List Event)
    (s1 s2 : State S W)
    (h1 : run o chain headers seals before (VerifyHeaders o chain headers seals w) = some s1)
    (hK : s1.received.length = K)
    (h2 : run o chain headers seals (Event.abort :: after) s1 = some s2) :
    s2.abort = true
      ∧ (∀ i err, s2.worker = .select i err →
          step o chain headers seals .workerAbort s2 = some { s2 with worker := .returned })
      ∧ (∃ es : List Event, es.length ≤ 2 ∧ neverSends o chain headers seals es s2 = true ∧
          ∃ s3, run o chain headers seals es s2 = some s3 ∧ s3.worker = .returned
            ∧ s3.published = s2.published)
      ∧ (neverSends o chain headers seals (Event.abort :: after) s1 = true →
          s2.published = s1.published ∧ (s1.results = [] → s2.published.length = K))
      ∧ (K ≤ s2.published.length ∧ s2.published.length ≤ headers.length
          ∧ s2.published = (verifyEach o chain headers seals w).take s2.published.length)
      ∧ (s2.worker = .returned →
          ∀ (es : List Event) (s3 : State S W), run o chain headers seals es s2 = some s3 →
            s3.worker = .returned ∧ s3.published = s2.published) := by
  have hinv1 := inv_run o chain headers seals w hlen before _ s1
    (inv_init o chain headers seals w) h1
  have hinv2 := inv_run o chain headers seals w hlen _ s1 s2 hinv1 h2
  obtain ⟨hp1, hp2⟩ := inv_published o chain headers seals w hlen s2 hinv2
  have hrec := (run_received_le o chain headers seals _ s1 s2 h2).1
  have hab : s2.abort = true := by
    have h2' := h2
    simp only [run, step, Option.some_bind] at h2'
    exact run_abort_true o chain headers seals after _ s2 rfl h2'
  refine ⟨hab, ?_, ?_, ?_, ⟨?_, hp2, hp1⟩, ?_⟩
  · intro i err hs
    exact workerAbort_enabled o chain headers seals s2 i err hab hs
  · exact abort_can_end_worker o chain headers seals w hlen s2 hinv2 hab
  · intro hns
    have hpub := run_neverSends o chain headers seals _ s1 s2 hns h2
    refine ⟨hpub, fun hempty => ?_⟩
    rw [hpub]
    simp [State.published, hempty, hK]
  · have : s2.received.length ≤ s2.published.length := by simp [State.published]
    omega
  · intro hr es s3 hrun
    exact (run_received_le o chain headers seals es s2 s3 hrun).2 hr

/-- Witness of C4 (amended): two headers; the caller has consumed the first result
(K = 1) and the worker holds the second at its `select` when the abort is
signalled; the `select` takes the abort case, and exactly one value was ever sent. -/
theorem abort_ends_worker_without_further_results_witness :
    [sampleHeader 1, sampleHeader 2].length ≤ [true, true].length
      ∧ run sampleRouter () [sampleHeader 1, sampleHeader 2] [true, true]
          [Event.worker, Event.worker, Event.recv, Event.worker]
          (VerifyHeaders sampleRouter () [sampleHeader 1, sampleHeader 2] [true, true] 0) =
        some { worker := .select 1 (some 102), world := 2, results := [],
               received := [some 101], abort := false }
      ∧ (State.received (S := sampleTypes) (W := Nat)
          { worker := .select 1 (some 102), world := 2, results := [], received := [some 101],
            abort := false }).length = 1
      ∧ run sampleRouter () [sampleHeader 1, sampleHeader 2] [true, true]
          [Event.abort, Event.workerAbort]
          { worker := .select 1 (some 102), world := 2, results := [], received := [some 101],
            abort := false } =
        some { worker := .returned, world := 2, results := [],
               received := [some 101], abort := true }
      ∧ neverSends sampleRouter () [sampleHeader 1, sampleHeader 2] [true, true]
          [Event.abort, Event.workerAbort]
          { worker := .select 1 (some 102), world := 2, results := [], received := [some 101],
            abort := false } = true
      ∧ (State.published (S := sampleTypes) (W := Nat)
            { worker := .returned, world := 2, results := [], received := [some 101],
              abort := true }).length = 1 :=
  ⟨by decide, rfl, rfl, rfl, rfl,
    ((abort_ends_worker_without_further_results sampleRouter ()
      [sampleHeader 1, sampleHeader 2] [true, true] 0 (by decide) 1
      [Event.worker, Event.worker, Event.recv, Event.worker] [Event.workerAbort]
      { worker := .select 1 (some 102), world := 2, results := [], received := [some 101],
        abort := false }
      { worker := .returned, world := 2, results := [], received := [some 101],
        abort := true } rfl rfl rfl).2.2.2.1 rfl).2 rfl⟩

/-- Counterexample to C4 as stated: with one header, the worker verifies it and
sends the result before the caller, who has consumed nothing (K = 0), signals the
abort; one value, not zero, is then available on the results channel. -/
theorem abort_leaves_exactly_consumed_counterexample :
    ¬ AbortLeavesExactlyConsumed sampleRouter () [sampleHeader 1] [true] 0 := by
  intro h
  have h0 := h 0 [Event.worker, Event.worker] []
    { worker := .loop 1, world := 1, results := [some 101], received := [], abort := false }
    { worker := .loop 1, world := 1, results := [some 101], received := [], abort := true }
    (by decide) rfl rfl rfl rfl
  simp [State.published] at h0

/-- A second way in which the abort property of the specification fails: the abort
is signalled before the worker has done anything, and the worker's `select`, for
which both cases can proceed, still takes the send. -/
theorem abort_then_send_possible :
    (run sampleRouter () [sampleHeader 1] [true] [Event.abort, Event.worker, Event.worker]
        (VerifyHeaders sampleRouter () [sampleHeader 1] [true] 0)).map
      (fun s => (s.abort, s.published)) = some (true, [some 101]) := by
  rfl

/-- C10: with at least as many seal flags as headers, in every state that
`VerifyHeaders` reaches the worker has not run out of range on `seals[i]`: at the
loop head with `i < len(headers)` the flag `seals[i]` exists and the worker's move
is the call of `verifyHeader`; and at the `select` for index `i` the results
buffer holds fewer than `len(headers)` values, so the send can proceed. -/
theorem verifyHeaders_index_in_range_and_buffer_free (o : Otonomos S W) (chain : S.ChainReader)
    (headers : List (Header S)) (seals : List Bool) (w : W)
    (hlen : headers.length ≤ seals.length) (es : List Event) (s : State S W)
    (hrun : run o chain headers seals es (VerifyHeaders o chain headers seals w) = some s) :
    s.worker ≠ .panicked
      ∧ (∀ i, s.worker = .loop i → i < headers.length →
          ∃ header sealFlag, headers[i]? = some header ∧ seals[i]? = some sealFlag ∧
            step o chain headers seals .worker s =
              some { s with
                worker := .select i (o.verifyHeader chain header sealFlag s.world).1
                world := (o.verifyHeader chain header sealFlag s.world).2 })
      ∧ (∀ i err, s.worker = .select i err →
          i < headers.length ∧ s.results.length ≤ i ∧ s.results.length < headers.length ∧
            step o chain headers seals .worker s =
              some { s with worker := .loop (i + 1), results := s.results ++ [err] }) := by
  have hinv := inv_run o chain headers seals w hlen es _ s (inv_init o chain headers seals w) hrun
  obtain ⟨rest, hfull, hw⟩ := hinv
  refine ⟨?_, ?_, ?_⟩
  · intro hp
    rw [hp] at hw
    exact hw
  · intro i _ hi
    have hi2 : i < seals.length := lt_of_lt_of_le hi hlen
    refine ⟨headers[i], seals[i], List.getElem?_eq_getElem hi, List.getElem?_eq_getElem hi2, ?_⟩
    simp [step, *, List.getElem?_eq_getElem hi, List.getElem?_eq_getElem hi2]
  · intro i err hs
    rw [hs] at hw
    obtain ⟨hi, hlt, _⟩ := hw
    have hroom : s.results.length ≤ i := by
      simp [State.published] at hi
      omega
    refine ⟨hlt, hroom, by omega, ?_⟩
    simp [step, hs, lt_of_le_of_lt hroom hlt]

/-- Witness of C10: the worker holds the result for the second of two headers, and
the buffer, which holds one value, has room for it. -/
theorem verifyHeaders_index_in_range_and_buffer_free_witness :
    [sampleHeader 1, sampleHeader 2].length ≤ [true, true, false].length
      ∧ run sampleRouter () [sampleHeader 1, sampleHeader 2] [true, true, false]
          [Event.worker, Event.worker, Event.worker]
          (VerifyHeaders sampleRouter () [sampleHeader 1, sampleHeader 2] [true, true, false]
            0) =
        some { worker := .select 1 (some 102), world := 2, results := [some 101],
               received := [], abort := false }
      ∧ (State.results (S := sampleTypes) (W := Nat)
          { worker := .select 1 (some 102), world := 2, results := [some 101], received := [],
            abort := false }).length < [sampleHeader 1, sampleHeader 2].length :=
  ⟨by decide, rfl,
    ((verifyHeaders_index_in_range_and_buffer_free sampleRouter ()
      [sampleHeader 1, sampleHeader 2] [true, true, false] 0 (by decide)
      [Event.worker, Event.worker, Event.worker]
      { worker := .select 1 (some 102), world := 2, results := [some 101], received := [],
        abort := false } rfl).2.2 1 (some 102) rfl).2.2.1⟩

end Otonomos
